import Mathlib

/-!
Verification of the Calendar/Roster repository's data layer, backup scripts
and auto-scheduler against its natural-language specification.

The JavaScript / Apps Script sources are shallowly embedded as executable
Lean functions over explicit list-based stores.  Asynchronous database
calls are modelled as pure state transformations; machine strings are
Lean `String`s, with the JavaScript string primitives the code uses
(`trim`, `toUpperCase`, `split`, `parseInt`) re-implemented by structural
recursion over the character list so that every definition evaluates
inside the kernel.
-/

/-! ## Character-level string primitives used by the embedded code -/

/-- One step of whitespace stripping: drop leading spaces, tabs, CR and LF
(the characters JavaScript `String.prototype.trim` removes that occur in
this code base's data). -/
def dropLeadingWs : List Char → List Char
  | [] => []
  | c :: cs => if c = ' ' ∨ c = '\t' ∨ c = '\n' ∨ c = '\r' then dropLeadingWs cs else c :: cs

/-- Embedding of JavaScript `String.prototype.trim`: strip leading and
trailing whitespace. -/
def trimString (s : String) : String :=
  String.mk (dropLeadingWs (dropLeadingWs s.data.reverse).reverse)

/-- Uppercase a single ASCII character (JavaScript `toUpperCase` on the
ASCII range used by the roster sheets). -/
def upperChar (c : Char) : Char :=
  if 'a' ≤ c ∧ c ≤ 'z' then Char.ofNat (c.toNat - 32) else c

/-- Embedding of JavaScript `String.prototype.toUpperCase` (ASCII). -/
def upperString (s : String) : String :=
  String.mk (s.data.map upperChar)

/-- Numeric value of a decimal digit character. -/
def digitVal (c : Char) : Option Nat :=
  if '0' ≤ c ∧ c ≤ '9' then some (c.toNat - '0'.toNat) else none

/-- Accumulating decimal parser over a character list. -/
def natOfDigitsAux : List Char → Nat → Option Nat
  | [], acc => some acc
  | c :: cs, acc =>
    match digitVal c with
    | some d => natOfDigitsAux cs (acc * 10 + d)
    | none => none

/-- Parse a non-empty all-digit character list as a natural number
(embedding of the successful case of JavaScript `parseInt`). -/
def natOfDigits : List Char → Option Nat
  | [] => none
  | cs => natOfDigitsAux cs 0

/-- Split a character list on a separator character (embedding of
JavaScript `String.prototype.split` with a single-character separator). -/
def splitOnCharList (sep : Char) : List Char → List (List Char)
  | [] => [[]]
  | c :: cs =>
    match splitOnCharList sep cs with
    | [] => [[c]]
    | g :: gs => if c = sep then [] :: g :: gs else (c :: g) :: gs

/-! ## C1 / C2: shift-assignment store (supabase-api.js and apps-script.gs)

`AssignmentRow` is a row of the Supabase `shift_assignments` table
(schema: `UNIQUE(shift_id, person_id)`, `is_auto BOOLEAN`).
`SheetAssignmentRow` is a row of the legacy `roster_assignments` Google
sheet, whose cells are strings. -/

structure AssignmentRow where
  shift_id : Nat
  person_id : Nat
  role : Option String
  is_auto : Bool
deriving Repr, DecidableEq

structure SheetAssignmentRow where
  shift_id : String
  name : String
  role : String
  is_manual : String
  assigned_at : String
deriving Repr, DecidableEq

/-- Embedding of `clearRosterAssignments` (supabase-api.js:464-477): delete
the assignments of the listed shifts; when `clearManual` is false the
delete query additionally filters on `is_auto = true`. -/
def clearRosterAssignments (store : List AssignmentRow) (shiftIds : List Nat)
    (clearManual : Bool) : List AssignmentRow :=
  store.filter (fun a => ! (shiftIds.contains a.shift_id && (clearManual || a.is_auto)))

/-- Embedding of `handleClearRosterAssignments` (apps-script.gs:424-448):
delete the sheet rows whose trimmed shift id is listed and which are not
flagged manual (`is_manual` trimmed and uppercased equal to TRUE), unless
`clearManual` is set, in which case all listed rows are deleted. -/
def handleClearRosterAssignments (sheet : List SheetAssignmentRow) (shiftIds : List String)
    (clearManual : Bool) : List SheetAssignmentRow :=
  sheet.filter (fun r =>
    ! (shiftIds.contains (trimString r.shift_id)
        && (clearManual || ! (upperString (trimString r.is_manual) = "TRUE" : Bool))))

/-- Input shape of `saveRosterAssignments` (supabase-api.js:432-457):
`[⟨shift_id, name, role, is_manual⟩]` with `is_manual` the string
TRUE / FALSE produced by the frontend. -/
structure AssignmentInput where
  shift_id : Nat
  name : String
  role : String
  is_manual : String
deriving Repr, DecidableEq

/-- Row construction loop of `saveRosterAssignments`: resolve each name
through the people cache (modelled as an association list), throwing on an
unknown name, and invert `is_manual` into `is_auto`. -/
def resolveAssignmentRows (people : List (String × Nat)) :
    List AssignmentInput → Except String (List AssignmentRow)
  | [] => .ok []
  | a :: rest =>
    match List.lookup a.name people with
    | none => .error ("Person not found: " ++ a.name)
    | some pid =>
      match resolveAssignmentRows people rest with
      | .error e => .error e
      | .ok rows =>
        .ok (⟨a.shift_id, pid, if a.role = "" then none else some a.role,
              ! (a.is_manual = "TRUE" : Bool)⟩ :: rows)

/-- Split a list into chunks of `n` elements (the 500-row batches of
`saveRosterAssignments`); the first argument is recursion fuel. -/
def chunksAux (n : Nat) : Nat → List α → List (List α)
  | 0, _ => []
  | _, [] => []
  | fuel + 1, l => l.take n :: chunksAux n fuel (l.drop n)

def chunksOf (n : Nat) (l : List α) : List (List α) :=
  chunksAux n l.length l

/-- Decidable check of the `UNIQUE(shift_id, person_id)` table constraint:
no two rows share the (shift, person) pair. -/
def noDupPair : List AssignmentRow → Bool
  | [] => true
  | r :: rs =>
    ! rs.any (fun b => decide (b.shift_id = r.shift_id ∧ b.person_id = r.person_id))
      && noDupPair rs

/-- The chunked `insert` loop of `saveRosterAssignments` against the
Supabase table: each batch insert succeeds only if the resulting table
still satisfies the unique-pair constraint, otherwise PostgREST rejects
the statement, the store is left as it was and the error is thrown
(the Boolean result records success). -/
def insertAssignmentChunks (store : List AssignmentRow) :
    List (List AssignmentRow) → List AssignmentRow × Bool
  | [] => (store, true)
  | c :: cs =>
    if noDupPair (store ++ c) then insertAssignmentChunks (store ++ c) cs
    else (store, false)

/-- Embedding of `saveRosterAssignments` (supabase-api.js:432-457): resolve
names, then insert the rows in batches of 500.  Returns the final store
and whether the call completed without throwing. -/
def saveRosterAssignments (people : List (String × Nat)) (store : List AssignmentRow)
    (assignments : List AssignmentInput) : List AssignmentRow × Bool :=
  match resolveAssignmentRows people assignments with
  | .error _ => (store, false)
  | .ok rows => insertAssignmentChunks store (chunksOf 500 rows)

/-- Input shape of `handleSaveRosterAssignments` (apps-script.gs:411-422). -/
structure SheetAssignmentInput where
  shift_id : String
  name : String
  role : String
  is_manual : Bool
  assigned_at : String
deriving Repr, DecidableEq

/-- Embedding of `handleSaveRosterAssignments` (apps-script.gs:411-422):
`appendRow` for every submitted assignment, with the JavaScript defaults
`a.role || 'member'` and `a.assigned_at || now`, and no duplicate check. -/
def handleSaveRosterAssignments (sheet : List SheetAssignmentRow)
    (assignments : List SheetAssignmentInput) (now : String) : List SheetAssignmentRow :=
  sheet ++ assignments.map (fun a =>
    ⟨a.shift_id, a.name, if a.role = "" then "member" else a.role,
      if a.is_manual then "TRUE" else "FALSE",
      if a.assigned_at = "" then now else a.assigned_at⟩)

/-! ## C7: roster configuration (supabase-api.js:256-300)

The frontend hands `saveRosterConfigKey` a JSON string; the code attempts
`JSON.parse` and on failure stores the raw string instead of throwing.
`JSON.parse` itself is external to the repository, so it is taken as an
arbitrary partial parsing function (`none` models a parse exception). -/

inductive JsonValue where
  | str (s : String)
  | num (n : Int)
  | boolean (b : Bool)
  | null
  | arr (elems : List JsonValue)
  | obj (fields : List (String × JsonValue))

/-- Row of the Supabase `roster_config` table (`UNIQUE(org_id, key)`,
`value JSONB`). -/
structure RosterConfigRow where
  org_id : Nat
  key : String
  value : JsonValue

/-- The `upsert` with `onConflict: 'org_id,key'` used by
`saveRosterConfigKey`: replace the value of an existing (org, key) row,
otherwise append a new row. -/
def upsertConfigRow (store : List RosterConfigRow) (orgId : Nat) (key : String)
    (v : JsonValue) : List RosterConfigRow :=
  if store.any (fun r => decide (r.org_id = orgId ∧ r.key = key)) then
    store.map (fun r => if r.org_id = orgId ∧ r.key = key then { r with value := v } else r)
  else store ++ [⟨orgId, key, v⟩]

/-- Read back the stored value of a configuration key. -/
def configLookup (store : List RosterConfigRow) (orgId : Nat) (key : String) :
    Option JsonValue :=
  (store.find? (fun r => decide (r.org_id = orgId ∧ r.key = key))).map (fun r => r.value)

/-- Embedding of `saveRosterConfigKey` (supabase-api.js:279-300): try to
parse the value as JSON, fall back to the raw string on a parse failure,
then upsert. -/
def saveRosterConfigKey (parseJson : String → Option JsonValue)
    (store : List RosterConfigRow) (orgId : Nat) (key value : String) :
    List RosterConfigRow :=
  let jsonbValue :=
    match parseJson value with
    | some v => v
    | none => JsonValue.str value
  upsertConfigRow store orgId key jsonbValue

/-- The scheduling parameters the roster UI reads from the
`scheduling_params` config key. -/
structure SchedulingParams where
  max_consecutive_days : Nat
deriving Repr, DecidableEq

/-- Modelled from the spec: the default parameter set used when the
configuration cannot be parsed ("treat the parameter set as
empty/default rather than aborting scheduling").  The spec fixes no
concrete numbers, so an arbitrary fixed default is used. -/
def defaultSchedulingParams : SchedulingParams := ⟨365⟩

/-- Extract the recognized `max_consecutive_days` field from a parsed
configuration value. -/
def extractSchedulingParams : JsonValue → Option SchedulingParams
  | .obj fields =>
    match List.lookup "max_consecutive_days" fields with
    | some (.num n) => some ⟨n.toNat⟩
    | _ => none
  | _ => none

/-- Modelled from the spec: the roster UI (roster.html, not under src/)
loads the scheduling parameter set from a raw config string and falls
back to the defaults when the JSON is unparseable, so that scheduling
proceeds instead of aborting. -/
def loadSchedulingParams (parseJson : String → Option JsonValue) (raw : String) :
    SchedulingParams :=
  ((parseJson raw).bind extractSchedulingParams).getD defaultSchedulingParams

/-! ## C8: per-organization people cache (supabase-api.js:8-100,
supabase-auth.js:111-115)

`_peopleCache` is a module-level mutable cache with a `loaded` flag;
`setCurrentOrg` switches the current organization without touching the
cache.  The database and client cache are modelled explicitly so the
interleaving of `setCurrentOrg` and `fetchCalendarData` can be run. -/

structure PersonRow where
  id : Nat
  org_id : Nat
  name : String
  association : String
deriving Repr, DecidableEq

structure CalendarEntryRow where
  org_id : Nat
  person_id : Nat
  date : String
  status : String
  note : String
deriving Repr, DecidableEq

structure Database where
  people : List PersonRow
  calendar_entries : List CalendarEntryRow
deriving Repr, DecidableEq

/-- Client-side mutable state: the selected organization
(supabase-auth.js `currentOrg`) and the `_peopleCache` contents. -/
structure ClientState where
  currentOrgId : Nat
  peopleLoaded : Bool
  peopleById : List (Nat × PersonRow)
deriving Repr, DecidableEq

/-- Fresh page load: no cache, the given organization selected. -/
def freshClientState (orgId : Nat) : ClientState :=
  ⟨orgId, false, []⟩

/-- Embedding of `setCurrentOrg` (supabase-auth.js:111-115): it assigns
`currentOrg` and persists the choice, and does not touch the caches. -/
def setCurrentOrg (st : ClientState) (orgId : Nat) : ClientState :=
  { st with currentOrgId := orgId }

/-- Embedding of `_ensurePeopleCache` (supabase-api.js:11-26): a no-op when
`loaded` is already set, otherwise fill the cache from the current
organization's `people` rows. -/
def ensurePeopleCache (db : Database) (st : ClientState) : ClientState :=
  if st.peopleLoaded then st
  else
    { st with
      peopleLoaded := true
      peopleById := (db.people.filter (fun p => decide (p.org_id = st.currentOrgId))).map
        (fun p => (p.id, p)) }

/-- Output row shape of `fetchCalendarData`. -/
structure CalendarDataRow where
  name : String
  date : String
  status : String
  note : String
  association : String
deriving Repr, DecidableEq

/-- Embedding of `fetchCalendarData` (supabase-api.js:77-100): ensure the
people cache, query the current organization's calendar entries, and
resolve each `person_id` through the cache, substituting "(unknown)"
when the cache has no entry for the id. -/
def fetchCalendarData (db : Database) (st : ClientState) :
    ClientState × List CalendarDataRow :=
  let stA := ensurePeopleCache db st
  let rows := (db.calendar_entries.filter (fun e => decide (e.org_id = stA.currentOrgId))).map
    (fun e =>
      match List.lookup e.person_id stA.peopleById with
      | some p => ⟨p.name, e.date, e.status, e.note, p.association⟩
      | none => ⟨"(unknown)", e.date, e.status, e.note, ""⟩)
  (stA, rows)

/-- Concrete two-organization database exhibiting the stale-cache run:
organization 1 owns Alice, organization 2 owns Bob and one calendar
entry for Bob. -/
def twoOrgDatabase : Database :=
  ⟨[⟨10, 1, "Alice", "alpha"⟩, ⟨20, 2, "Bob", "bravo"⟩],
    [⟨2, 20, "2026-01-01", "home", ""⟩]⟩

/-! ## C9: saveRosterShifts (supabase-api.js:304, 369-412) -/

/-- Hexadecimal digit test (both cases, as the `_UUID_RE` regex is
case-insensitive). -/
def isHexChar (c : Char) : Bool :=
  decide (('0' ≤ c ∧ c ≤ '9') ∨ ('a' ≤ c ∧ c ≤ 'f') ∨ ('A' ≤ c ∧ c ≤ 'F'))

/-- Embedding of the `_UUID_RE` test (supabase-api.js:304): five
hyphen-separated groups of hex digits with lengths 8-4-4-4-12. -/
def isUuid (s : String) : Bool :=
  match splitOnCharList '-' s.data with
  | [a, b, c, d, e] =>
    decide (a.length = 8) && decide (b.length = 4) && decide (c.length = 4)
      && decide (d.length = 4) && decide (e.length = 12)
      && (a ++ b ++ c ++ d ++ e).all isHexChar
  | _ => false

/-- Frontend shift object handed to `saveRosterShifts`. -/
structure ShiftInput where
  id : String
  date : String
  mission_type : String
  start_time : String
  end_time : String
  note : String
deriving Repr, DecidableEq

/-- Row of the Supabase `shifts` table. -/
structure DbShiftRow where
  id : String
  org_id : String
  date : String
  mission_type_id : Option String
  start_time : Option String
  end_time : Option String
  note : String
deriving Repr, DecidableEq

/-- The time normalization of `saveRosterShifts`: an empty time becomes
null, a five-character HH:MM time gets a seconds suffix. -/
def normTime (t : String) : Option String :=
  if t = "" then none
  else some (if t.data.length = 5 then t ++ ":00" else t)

/-- The per-shift loop of `saveRosterShifts`: shifts whose id passes the
UUID test update the matching database row in place; the rest are
inserted with a database-generated id (`freshGen` with a running counter
models `gen_random_uuid()`), and the input object's id is mutated to the
generated id.  Returns the final table, the mutated input list, and the
final counter. -/
def saveRosterShiftsAux (mtBySlug : List (String × String)) (orgId : String)
    (freshGen : Nat → String) :
    List ShiftInput → List DbShiftRow → Nat → List DbShiftRow × List ShiftInput × Nat
  | [], db, k => (db, [], k)
  | s :: rest, db, k =>
    let mtId := List.lookup s.mission_type mtBySlug
    if isUuid s.id then
      let db2 := db.map (fun r =>
        if r.id = s.id then
          { r with
            date := s.date
            mission_type_id := mtId
            start_time := normTime s.start_time
            end_time := normTime s.end_time
            note := s.note }
        else r)
      let res := saveRosterShiftsAux mtBySlug orgId freshGen rest db2 k
      (res.1, s :: res.2.1, res.2.2)
    else
      let nid := freshGen k
      let db2 := db ++ [⟨nid, orgId, s.date, mtId, normTime s.start_time,
        normTime s.end_time, s.note⟩]
      let res := saveRosterShiftsAux mtBySlug orgId freshGen rest db2 (k + 1)
      (res.1, { s with id := nid } :: res.2.1, res.2.2)

/-- Embedding of `saveRosterShifts` (supabase-api.js:369-412). -/
def saveRosterShifts (mtBySlug : List (String × String)) (orgId : String)
    (freshGen : Nat → String) (db : List DbShiftRow) (shifts : List ShiftInput) :
    List DbShiftRow × List ShiftInput :=
  let res := saveRosterShiftsAux mtBySlug orgId freshGen shifts db 0
  (res.1, res.2.1)

/-! ## C10: CSV backup and restore (.github/scripts) -/

/-- Double every quote character (JavaScript `val.replace(/"/g, '""')`). -/
def escQuotes : List Char → List Char
  | [] => []
  | c :: cs => if c = '"' then '"' :: '"' :: escQuotes cs else c :: escQuotes cs

/-- Field encoder of `toCsv` (backup-to-csv.js:24-39): quote the value and
double its quotes when it contains a comma, a double quote or a newline. -/
def escapeCsvField (val : String) : String :=
  if val.data.any (fun c => decide (c = ',' ∨ c = '"' ∨ c = '\n')) then
    String.mk ('"' :: escQuotes val.data ++ ['"'])
  else val

/-- `row[col]` for an object row: a missing column reads as the empty
string (the null/undefined branch of `toCsv`). -/
def csvField (row : List (String × String)) (col : String) : String :=
  (List.lookup col row).getD ""

/-- Embedding of `toCsv` (backup-to-csv.js:24-39). -/
def toCsv (rows : List (List (String × String))) (columns : List String) : String :=
  if rows.isEmpty then String.intercalate "," columns ++ "\n"
  else
    String.intercalate "," columns ++ "\n"
      ++ String.intercalate "\n"
          (rows.map (fun row =>
            String.intercalate "," (columns.map (fun col => escapeCsvField (csvField row col)))))
      ++ "\n"

/-- The first loop of `parseCsv` (restore-from-csv.js:54-102): split the
text into logical lines, tracking quoted regions.  Note the loop strips
the quote characters while collecting the line and folds doubled quotes;
CR, LF and CRLF outside quotes end a line, and an empty first line is
skipped.  Arguments: inQuotes flag, remaining text, current line
accumulator (reversed), finished lines (reversed). -/
def csvLinesAux : Bool → List Char → List Char → List (List Char) → List (List Char)
  | _, [], cur, acc =>
    if cur.length > 0 then (cur.reverse :: acc).reverse else acc.reverse
  | true, '"' :: '"' :: rest, cur, acc => csvLinesAux true rest ('"' :: cur) acc
  | true, '"' :: rest, cur, acc => csvLinesAux false rest cur acc
  | true, c :: rest, cur, acc => csvLinesAux true rest (c :: cur) acc
  | false, '"' :: rest, cur, acc => csvLinesAux true rest cur acc
  | false, '\r' :: '\n' :: rest, cur, acc =>
    if cur.length > 0 ∨ acc.length > 0 then csvLinesAux false rest [] (cur.reverse :: acc)
    else csvLinesAux false rest [] acc
  | false, '\r' :: rest, cur, acc =>
    if cur.length > 0 ∨ acc.length > 0 then csvLinesAux false rest [] (cur.reverse :: acc)
    else csvLinesAux false rest [] acc
  | false, '\n' :: rest, cur, acc =>
    if cur.length > 0 ∨ acc.length > 0 then csvLinesAux false rest [] (cur.reverse :: acc)
    else csvLinesAux false rest [] acc
  | false, c :: rest, cur, acc => csvLinesAux false rest (c :: cur) acc

/-- Field-splitting loop of `splitCsvLine` (restore-from-csv.js:104-135):
split a logical line on unquoted commas, again tracking (and stripping)
quotes and folding doubled quotes.  Arguments as in `csvLinesAux`; the
current field is always pushed at the end. -/
def splitCsvFieldsAux : Bool → List Char → List Char → List (List Char) → List (List Char)
  | _, [], cur, acc => (cur.reverse :: acc).reverse
  | true, '"' :: '"' :: rest, cur, acc => splitCsvFieldsAux true rest ('"' :: cur) acc
  | true, '"' :: rest, cur, acc => splitCsvFieldsAux false rest cur acc
  | true, c :: rest, cur, acc => splitCsvFieldsAux true rest (c :: cur) acc
  | false, '"' :: rest, cur, acc => splitCsvFieldsAux true rest cur acc
  | false, ',' :: rest, cur, acc => splitCsvFieldsAux false rest [] (cur.reverse :: acc)
  | false, c :: rest, cur, acc => splitCsvFieldsAux false rest (c :: cur) acc

/-- Embedding of `splitCsvLine` (restore-from-csv.js:104-135). -/
def splitCsvLine (line : List Char) : List String :=
  (splitCsvFieldsAux false line [] []).map String.mk

/-- Embedding of `parseCsv` (restore-from-csv.js:54-102): split into
logical lines, read the header from the first line, then build one
object per remaining line, skipping lines that parse to a single empty
value, and padding missing columns with the empty string. -/
def parseCsv (text : String) : List (List (String × String)) :=
  match csvLinesAux false text.data [] [] with
  | [] => []
  | headerLine :: rest =>
    let header := splitCsvLine headerLine
    rest.filterMap (fun line =>
      let values := splitCsvLine line
      if values.length = 0 ∨ (values.length = 1 ∧ values.headD "" = "") then none
      else
        some ((header.enum.map (fun ci =>
          (ci.2, if h : ci.1 < values.length then values.get ⟨ci.1, h⟩ else "")))))

/-! ## C3-C6: the auto-scheduler

Modelled from the spec: the greedy auto-scheduler lives in `roster.html`,
which is not under src/ (only the optimization notes in
optimize-roster-prompt.md excerpt it).  The embedding below follows the
spec's algorithm description (section 4.1) and the roster.html excerpts:
one pass over the shifts in date order, a filtered candidate pool per
open slot, a score maximised with a strict-greater fold so that the
earlier-declared person wins ties, and per-run tracking of new
assignments for load, conflict and consecutive-day checks. -/

structure Person where
  pid : Nat
  pname : String
  tags : List String
deriving Repr, DecidableEq

structure MissionType where
  mtId : Nat
  minPeople : Nat
  requiredRoles : List String
deriving Repr, DecidableEq

structure Shift where
  sid : Nat
  sdate : Nat
  smt : Nat
  start_time : String
  end_time : String
deriving Repr, DecidableEq

structure ExistingAssignment where
  shift_id : Nat
  person_id : Nat
  role : Option String
  is_manual : Bool
deriving Repr, DecidableEq

/-- A newly produced automatic assignment.  Following the roster.html
excerpt (optimize-roster-prompt.md section 7b/7c) the record caches the
shift's date and precomputed minute window for conflict checks. -/
structure NewAssignment where
  shift_id : Nat
  person_id : Nat
  adate : Nat
  start_min : Nat
  end_min : Nat
  role : Option String
deriving Repr, DecidableEq

structure SchedulerConfig where
  exclusions : List (Nat × Nat)
  buddies : List (Nat × Nat)
  maxConsecutiveDays : Nat
deriving Repr, DecidableEq

/-- Calendar availability signal: one status per (person, date). -/
structure CalendarStatus where
  person_id : Nat
  cdate : Nat
  status : String
deriving Repr, DecidableEq

/-- Modelled from the spec / roster.html excerpt: convert an HH:MM string
to minute-of-day. -/
def timeToMinutes (t : String) : Nat :=
  match splitOnCharList ':' t.data with
  | [h, m] => 60 * (natOfDigits h).getD 0 + (natOfDigits m).getD 0
  | _ => 0

/-- Shift time window in minutes, adding 1440 to an end time that is not
after the start time (midnight-crossing shifts), per the roster.html
excerpt `if (s._endMin <= s._startMin) s._endMin += 1440`. -/
def shiftWindow (s : Shift) : Nat × Nat :=
  let stMin := timeToMinutes s.start_time
  let enMin := timeToMinutes s.end_time
  (stMin, if enMin ≤ stMin then enMin + 1440 else enMin)

/-- Two people are in an exclusion relationship when either direction is
listed in the exclusion pairs. -/
def mutuallyExcluded (cfg : SchedulerConfig) (p q : Nat) : Bool :=
  cfg.exclusions.any (fun pr => decide ((pr.1 = p ∧ pr.2 = q) ∨ (pr.1 = q ∧ pr.2 = p)))

def areBuddies (cfg : SchedulerConfig) (p q : Nat) : Bool :=
  cfg.buddies.any (fun pr => decide ((pr.1 = p ∧ pr.2 = q) ∨ (pr.1 = q ∧ pr.2 = p)))

/-- A person is unavailable on a date when a calendar entry marks them
home; a missing entry counts as available (the spec's fail-open rule). -/
def unavailableOn (cal : List CalendarStatus) (p d : Nat) : Bool :=
  cal.any (fun e => decide (e.person_id = p ∧ e.cdate = d ∧ e.status = "home"))

/-- Dates on which pre-existing assignments put a person on duty, resolved
through the shift list. -/
def existingDates (shifts : List Shift) (existing : List ExistingAssignment) (p : Nat) :
    List Nat :=
  existing.filterMap (fun a =>
    if a.person_id = p then
      (shifts.find? (fun s => decide (s.sid = a.shift_id))).map (fun s => s.sdate)
    else none)

/-- Dates assigned to a person by the current scheduling run. -/
def newDates (news : List NewAssignment) (p : Nat) : List Nat :=
  news.filterMap (fun a => if a.person_id = p then some a.adate else none)

/-- All duty dates of a person: pre-existing plus this run's. -/
def personDates (shifts : List Shift) (existing : List ExistingAssignment)
    (news : List NewAssignment) (p : Nat) : List Nat :=
  existingDates shifts existing p ++ newDates news p

/-- Time-conflict test against the pre-existing assignments. -/
def existingConflict (shifts : List Shift) (existing : List ExistingAssignment)
    (p d stMin enMin : Nat) : Bool :=
  existing.any (fun a =>
    decide (a.person_id = p) &&
      match shifts.find? (fun s => decide (s.sid = a.shift_id)) with
      | some s =>
        decide (s.sdate = d)
          && decide (stMin < (shiftWindow s).2 ∧ (shiftWindow s).1 < enMin)
      | none => false)

/-- Time-conflict test against this run's assignments (roster.html
excerpt: same-date check, then interval overlap on cached minutes). -/
def newConflict (news : List NewAssignment) (p d stMin enMin : Nat) : Bool :=
  news.any (fun a =>
    decide (a.person_id = p ∧ a.adate = d ∧ stMin < a.end_min ∧ a.start_min < enMin))

/-- Length of the consecutive run of dates in `S` starting at `d`, with
recursion fuel. -/
def runLen (S : List Nat) : Nat → Nat → Nat
  | _, 0 => 0
  | d, fuel + 1 => if d ∈ S then runLen S (d + 1) fuel + 1 else 0

/-- Longest run of consecutive dates appearing in `S`. -/
def maxRun (S : List Nat) : Nat :=
  (S.map (fun d => runLen S d S.length)).foldr Nat.max 0

/-- Decidable consecutive-day check: no run in `S` is longer than `m`. -/
def consecOK (m : Nat) (S : List Nat) : Bool :=
  decide (maxRun S ≤ m)

/-- Roles already covered on a shift. -/
def rolesTaken (assigned : List (Nat × Option String)) : List String :=
  assigned.filterMap (fun q => q.2)

/-- The first required role of the mission type that is still uncovered
and that the candidate's tags can fulfil. -/
def unmetRoleFor (mt : MissionType) (assigned : List (Nat × Option String))
    (p : Person) : Option String :=
  mt.requiredRoles.find? (fun r => ! (rolesTaken assigned).contains r && p.tags.contains r)

/-- Candidate eligibility (spec section 4.1 step 2b): not already on the
shift, available that date, no time-overlapping assignment that date
(pre-existing or from this run), consecutive-day limit respected if this
date is added, and no exclusion relationship with anyone already
assigned to the shift.  `assigned` is the shift's current (person, role)
list, `d` the shift date, `win` its minute window. -/
def candidateOK (shifts : List Shift) (existing : List ExistingAssignment)
    (cal : List CalendarStatus) (cfg : SchedulerConfig) (news : List NewAssignment)
    (d : Nat) (win : Nat × Nat) (assigned : List (Nat × Option String)) (p : Person) : Bool :=
  ! (assigned.map Prod.fst).contains p.pid
    && ! unavailableOn cal p.pid d
    && ! existingConflict shifts existing p.pid d win.1 win.2
    && ! newConflict news p.pid d win.1 win.2
    && consecOK cfg.maxConsecutiveDays (d :: personDates shifts existing news p.pid)
    && ! assigned.any (fun q => mutuallyExcluded cfg p.pid q.1)

/-- Number of assignments a person received so far in this run. -/
def loadOf (news : List NewAssignment) (p : Nat) : Nat :=
  news.countP (fun a => decide (a.person_id = p))

/-- Candidate score (spec section 4.1 step 2c): role fulfilment and buddy
presence add fixed bonuses, the running load is subtracted for load
balancing.  The concrete weights were implicit constants in the source. -/
def scoreOf (cfg : SchedulerConfig) (news : List NewAssignment)
    (assigned : List (Nat × Option String)) (mt : MissionType) (p : Person) : Int :=
  (if (unmetRoleFor mt assigned p).isSome then (100 : Int) else 0)
    + (if assigned.any (fun q => areBuddies cfg p.pid q.1) then (10 : Int) else 0)
    - (loadOf news p.pid : Int)

/-- Left fold keeping the current best candidate, replacing it only on a
strictly greater score, so the earliest maximum wins. -/
def pickBestFrom (score : α → Int) (best : α) : List α → α
  | [] => best
  | x :: xs => pickBestFrom score (if score best < score x then x else best) xs

/-- Best-scored candidate of a pool (none when the pool is empty). -/
def pickBest (score : α → Int) : List α → Option α
  | [] => none
  | x :: xs => some (pickBestFrom score x xs)

/-- Fill up to `k` open slots of one shift: rebuild the candidate pool,
assign the top-ranked candidate, record the new automatic assignment and
repeat.  Returns the extended run assignments and the number of slots
left open. -/
def fillSlots (shifts : List Shift) (existing : List ExistingAssignment)
    (cal : List CalendarStatus) (cfg : SchedulerConfig) (people : List Person)
    (mt : MissionType) (sid d : Nat) (win : Nat × Nat) :
    Nat → List NewAssignment → List (Nat × Option String) → List NewAssignment × Nat
  | 0, news, _ => (news, 0)
  | k + 1, news, assigned =>
    match pickBest (scoreOf cfg news assigned mt)
        (people.filter (candidateOK shifts existing cal cfg news d win assigned)) with
    | none => (news, k + 1)
    | some p =>
      fillSlots shifts existing cal cfg people mt sid d win k
        (news ++ [⟨sid, p.pid, d, win.1, win.2, unmetRoleFor mt assigned p⟩])
        (assigned ++ [(p.pid, unmetRoleFor mt assigned p)])

/-- The (person, role) pairs currently assigned to a shift: pre-existing
assignments plus this run's. -/
def assignedOnShift (existing : List ExistingAssignment) (news : List NewAssignment)
    (sid : Nat) : List (Nat × Option String) :=
  existing.filterMap (fun a => if a.shift_id = sid then some (a.person_id, a.role) else none)
    ++ news.filterMap (fun a => if a.shift_id = sid then some (a.person_id, a.role) else none)

structure ScheduleResult where
  newAssignments : List NewAssignment
  understaffed : List (Nat × Nat)
  skippedShifts : List Nat
deriving Repr, DecidableEq

/-- Process one shift: unknown mission types are skipped and reported;
otherwise the remaining open slots (minimum headcount minus current
assignees, manual ones included) are filled greedily and a shortfall is
reported, not fatal. -/
def scheduleShift (shifts : List Shift) (mts : List MissionType)
    (existing : List ExistingAssignment) (cal : List CalendarStatus)
    (cfg : SchedulerConfig) (people : List Person) (acc : ScheduleResult) (s : Shift) :
    ScheduleResult :=
  match mts.find? (fun mt => decide (mt.mtId = s.smt)) with
  | none => { acc with skippedShifts := acc.skippedShifts ++ [s.sid] }
  | some mt =>
    let assigned := assignedOnShift existing acc.newAssignments s.sid
    let res := fillSlots shifts existing cal cfg people mt s.sid s.sdate (shiftWindow s)
      (mt.minPeople - assigned.length) acc.newAssignments assigned
    { acc with
      newAssignments := res.1
      understaffed :=
        if 0 < res.2 then acc.understaffed ++ [(s.sid, res.2)] else acc.understaffed }

/-- Stable insertion into a date-ascending shift list. -/
def insertShiftByDate (s : Shift) : List Shift → List Shift
  | [] => [s]
  | t :: ts => if s.sdate ≤ t.sdate then s :: t :: ts else t :: insertShiftByDate s ts

/-- Sort the shifts chronologically (stable). -/
def sortShiftsByDate (l : List Shift) : List Shift :=
  l.foldr insertShiftByDate []

/-- Modelled from the spec: the auto-scheduler.  A single synchronous pass
over the shifts in date order; returns the new automatic assignments,
the understaffed-shift report and the skipped (unknown mission type)
shifts. -/
def autoSchedule (shifts : List Shift) (people : List Person) (mts : List MissionType)
    (existing : List ExistingAssignment) (cal : List CalendarStatus)
    (cfg : SchedulerConfig) : ScheduleResult :=
  (sortShiftsByDate shifts).foldl
    (scheduleShift shifts mts existing cal cfg people) ⟨[], [], []⟩

/-- The property that no run of consecutive dates satisfying `mem` is
longer than `m` (the consecutive-day limit as a predicate). -/
def NoLongRun (m : Nat) (mem : Nat → Prop) : Prop :=
  ∀ d k, (∀ i, i ≤ k → mem (d + i)) → k + 1 ≤ m

/-! ## Helper lemmas -/

theorem pickBestFrom_mem (score : α → Int) (b : α) (xs : List α) :
    pickBestFrom score b xs ∈ b :: xs := by
  induction xs generalizing b with
  | nil => simp [pickBestFrom]
  | cons x xs ih =>
    rw [pickBestFrom]
    have h := ih (if score b < score x then x else b)
    rcases List.mem_cons.mp h with h | h
    · rw [h]
      by_cases hc : score b < score x
      · simp [hc]
      · simp [hc]
    · exact List.mem_cons_of_mem _ (List.mem_cons_of_mem _ h)

theorem pickBest_mem (score : α → Int) (l : List α) (c : α)
    (h : pickBest score l = some c) : c ∈ l := by
  cases l with
  | nil => simp [pickBest] at h
  | cons x xs =>
    simp only [pickBest, Option.some.injEq] at h
    subst h
    exact pickBestFrom_mem score x xs

theorem mutuallyExcluded_symm (cfg : SchedulerConfig) (p q : Nat) :
    mutuallyExcluded cfg p q = mutuallyExcluded cfg q p := by
  unfold mutuallyExcluded
  induction cfg.exclusions with
  | nil => rfl
  | cons pr prs ih =>
    simp only [List.any_cons, ih]
    congr 1
    rw [decide_eq_decide]
    tauto

theorem candidateOK_spec (shifts : List Shift) (existing : List ExistingAssignment)
    (cal : List CalendarStatus) (cfg : SchedulerConfig) (news : List NewAssignment)
    (d : Nat) (win : Nat × Nat) (assigned : List (Nat × Option String)) (p : Person)
    (h : candidateOK shifts existing cal cfg news d win assigned p = true) :
    newConflict news p.pid d win.1 win.2 = false
      ∧ consecOK cfg.maxConsecutiveDays (d :: personDates shifts existing news p.pid) = true
      ∧ (∀ q ∈ assigned, mutuallyExcluded cfg p.pid q.1 = false) := by
  simp only [candidateOK, Bool.and_eq_true, Bool.not_eq_true'] at h
  obtain ⟨⟨⟨⟨⟨hA, hB⟩, hC⟩, hD⟩, hE⟩, hF⟩ := h
  exact ⟨hD, hE, fun q hq => by simpa using List.any_eq_false.mp hF q hq⟩

theorem assignedOnShift_covers (existing : List ExistingAssignment)
    (news : List NewAssignment) (sid : Nat) :
    ∀ b ∈ news, b.shift_id = sid →
      b.person_id ∈ (assignedOnShift existing news sid).map Prod.fst := by
  intro b hb hbs
  simp only [assignedOnShift, List.map_append, List.mem_append]
  right
  simp only [List.mem_map, List.mem_filterMap]
  exact ⟨(b.person_id, b.role), ⟨b, hb, by simp [hbs]⟩, rfl⟩

theorem fillSlots_inv (shifts : List Shift) (existing : List ExistingAssignment)
    (cal : List CalendarStatus) (cfg : SchedulerConfig) (people : List Person)
    (mt : MissionType) (sid d : Nat) (win : Nat × Nat)
    (Q : List NewAssignment → Prop)
    (hstep : ∀ news assigned p role, Q news →
      (∀ b ∈ news, b.shift_id = sid → b.person_id ∈ assigned.map Prod.fst) →
      candidateOK shifts existing cal cfg news d win assigned p = true →
      Q (news ++ [⟨sid, p.pid, d, win.1, win.2, role⟩])) :
    ∀ (k : Nat) (news : List NewAssignment) (assigned : List (Nat × Option String)),
      Q news →
      (∀ b ∈ news, b.shift_id = sid → b.person_id ∈ assigned.map Prod.fst) →
      Q (fillSlots shifts existing cal cfg people mt sid d win k news assigned).1 := by
  intro k
  induction k with
  | zero => intro news assigned hQ _; simpa [fillSlots] using hQ
  | succ k ih =>
    intro news assigned hQ hcov
    rw [fillSlots]
    cases hpick : pickBest (scoreOf cfg news assigned mt)
        (people.filter (candidateOK shifts existing cal cfg news d win assigned)) with
    | none => simpa using hQ
    | some p =>
      have hmem := pickBest_mem _ _ _ hpick
      have hok : candidateOK shifts existing cal cfg news d win assigned p = true :=
        (List.mem_filter.mp hmem).2
      simp only
      apply ih
      · exact hstep news assigned p _ hQ hcov hok
      · intro b hb hbs
        rcases List.mem_append.mp hb with hb | hb
        · have := hcov b hb hbs
          simp only [List.map_append, List.mem_append]
          exact Or.inl this
        · simp only [List.mem_singleton] at hb
          subst hb
          simp

theorem scheduleShift_inv (shifts : List Shift) (mts : List MissionType)
    (existing : List ExistingAssignment) (cal : List CalendarStatus)
    (cfg : SchedulerConfig) (people : List Person)
    (Q : List NewAssignment → Prop)
    (hstep : ∀ news assigned p role (sid d : Nat) (win : Nat × Nat), Q news →
      (∀ b ∈ news, b.shift_id = sid → b.person_id ∈ assigned.map Prod.fst) →
      candidateOK shifts existing cal cfg news d win assigned p = true →
      Q (news ++ [⟨sid, p.pid, d, win.1, win.2, role⟩]))
    (acc : ScheduleResult) (s : Shift) (hQ : Q acc.newAssignments) :
    Q (scheduleShift shifts mts existing cal cfg people acc s).newAssignments := by
  rw [scheduleShift]
  cases hfind : mts.find? (fun mt => decide (mt.mtId = s.smt)) with
  | none => simpa using hQ
  | some mt =>
    simp only
    exact fillSlots_inv shifts existing cal cfg people mt s.sid s.sdate (shiftWindow s) Q
      (fun news assigned p role h1 h2 h3 => hstep news assigned p role s.sid s.sdate
        (shiftWindow s) h1 h2 h3)
      _ acc.newAssignments _ hQ
      (assignedOnShift_covers existing acc.newAssignments s.sid)

theorem autoSchedule_inv (shifts : List Shift) (people : List Person)
    (mts : List MissionType) (existing : List ExistingAssignment)
    (cal : List CalendarStatus) (cfg : SchedulerConfig)
    (Q : List NewAssignment → Prop)
    (hstep : ∀ news assigned p role (sid d : Nat) (win : Nat × Nat), Q news →
      (∀ b ∈ news, b.shift_id = sid → b.person_id ∈ assigned.map Prod.fst) →
      candidateOK shifts existing cal cfg news d win assigned p = true →
      Q (news ++ [⟨sid, p.pid, d, win.1, win.2, role⟩]))
    (hinit : Q []) :
    Q (autoSchedule shifts people mts existing cal cfg).newAssignments := by
  rw [autoSchedule]
  generalize sortShiftsByDate shifts = l
  suffices h : ∀ (l : List Shift) (acc : ScheduleResult), Q acc.newAssignments →
      Q ((l.foldl (scheduleShift shifts mts existing cal cfg people) acc)).newAssignments by
    exact h l ⟨[], [], []⟩ hinit
  intro l
  induction l with
  | nil => intro acc h; simpa using h
  | cons s rest ih =>
    intro acc h
    exact ih _ (scheduleShift_inv shifts mts existing cal cfg people Q hstep acc s h)

theorem le_foldr_max (a : Nat) (l : List Nat) (h : a ∈ l) :
    a ≤ l.foldr Nat.max 0 := by
  induction l with
  | nil => cases h
  | cons b bs ih =>
    rcases List.mem_cons.mp h with h | h
    · subst h; exact Nat.le_max_left _ _
    · exact (ih h).trans (Nat.le_max_right _ _)

theorem runLen_ge (S : List Nat) :
    ∀ (k d fuel : Nat), (∀ i, i ≤ k → (d + i) ∈ S) → k + 1 ≤ fuel →
      k + 1 ≤ runLen S d fuel := by
  intro k
  induction k with
  | zero =>
    intro d fuel h hf
    cases fuel with
    | zero => omega
    | succ f =>
      have hd : d ∈ S := by simpa using h 0 (Nat.le_refl 0)
      simp [runLen, hd]
  | succ k ih =>
    intro d fuel h hf
    cases fuel with
    | zero => omega
    | succ f =>
      have hd : d ∈ S := by simpa using h 0 (Nat.zero_le _)
      have hrest : ∀ i, i ≤ k → (d + 1 + i) ∈ S := by
        intro i hi
        have := h (i + 1) (Nat.succ_le_succ hi)
        simpa [Nat.add_assoc, Nat.add_comm 1 i] using this
      have hih := ih (d + 1) f hrest (by omega)
      rw [runLen]
      simp only [hd, if_true]
      omega

theorem run_length_le (S : List Nat) (d k : Nat) (h : ∀ i, i ≤ k → (d + i) ∈ S) :
    k + 1 ≤ S.length := by
  have hnd : ((List.range (k + 1)).map (fun i => d + i)).Nodup :=
    List.Nodup.map (fun a b hab => by omega) (List.nodup_range _)
  have hsub : ((List.range (k + 1)).map (fun i => d + i)) ⊆ S := by
    intro x hx
    simp only [List.mem_map, List.mem_range] at hx
    obtain ⟨i, hi, rfl⟩ := hx
    exact h i (Nat.lt_succ_iff.mp hi)
  have := (hnd.subperm hsub).length_le
  simpa using this

theorem consecOK_noLongRun (m : Nat) (S : List Nat) (h : consecOK m S = true) :
    NoLongRun m (fun d => d ∈ S) := by
  intro d k hk
  have hd : d ∈ S := by simpa using hk 0 (Nat.zero_le k)
  have h1 : k + 1 ≤ S.length := run_length_le S d k hk
  have h2 : k + 1 ≤ runLen S d S.length := runLen_ge S k d S.length hk h1
  have h3 : runLen S d S.length ≤ maxRun S :=
    le_foldr_max _ _ (List.mem_map.mpr ⟨d, hd, rfl⟩)
  have h4 : maxRun S ≤ m := by simpa [consecOK] using h
  omega

theorem noLongRun_congr (m : Nat) (P Q : Nat → Prop) (h : ∀ x, P x ↔ Q x)
    (hn : NoLongRun m P) : NoLongRun m Q :=
  fun d k hk => hn d k (fun i hi => (h _).mpr (hk i hi))

theorem newDates_append (news : List NewAssignment) (a : NewAssignment) (p : Nat) :
    newDates (news ++ [a]) p
      = newDates news p ++ (if a.person_id = p then [a.adate] else []) := by
  simp only [newDates, List.filterMap_append]
  congr 1
  by_cases h : a.person_id = p <;> simp [h]

theorem personDates_append_mem (shifts : List Shift) (existing : List ExistingAssignment)
    (news : List NewAssignment) (a : NewAssignment) (p x : Nat) :
    x ∈ personDates shifts existing (news ++ [a]) p
      ↔ x ∈ personDates shifts existing news p
          ∨ (a.person_id = p ∧ x = a.adate) := by
  simp only [personDates, newDates_append, List.mem_append]
  by_cases h : a.person_id = p
  · simp [h]; tauto
  · simp [h]

theorem newConflict_false_forall (news : List NewAssignment) (p d st en : Nat)
    (h : newConflict news p d st en = false) :
    ∀ b ∈ news, b.person_id = p → b.adate = d →
      ¬(st < b.end_min ∧ b.start_min < en) := by
  intro b hb h1 h2 hcon
  have := List.any_eq_false.mp h b hb
  simp [h1, h2, hcon.1, hcon.2] at this

/-! ## Claim theorems -/

/-- C3: in the scheduler's output no person is assigned to two shifts on
the same date with overlapping time windows, the windows being the
minute-of-day intervals cached on each output assignment (computed by
`shiftWindow` from the HH:MM strings, with 1440 minutes added to an end
time that is not after the start time). -/
theorem autoSchedule_no_double_booking
    (shifts : List Shift) (people : List Person) (mts : List MissionType)
    (existing : List ExistingAssignment) (cal : List CalendarStatus)
    (cfg : SchedulerConfig) :
    ∀ a1 ∈ (autoSchedule shifts people mts existing cal cfg).newAssignments,
      ∀ a2 ∈ (autoSchedule shifts people mts existing cal cfg).newAssignments,
        a1.person_id = a2.person_id → a1.shift_id ≠ a2.shift_id → a1.adate = a2.adate →
          ¬(a1.start_min < a2.end_min ∧ a2.start_min < a1.end_min) := by
  refine autoSchedule_inv shifts people mts existing cal cfg
    (fun news => ∀ a1 ∈ news, ∀ a2 ∈ news, a1.person_id = a2.person_id →
      a1.shift_id ≠ a2.shift_id → a1.adate = a2.adate →
      ¬(a1.start_min < a2.end_min ∧ a2.start_min < a1.end_min))
    ?_ ?_
  · intro news assigned p role sid d win hQ hcov hok
    have hconf := newConflict_false_forall news p.pid d win.1 win.2
      (candidateOK_spec _ _ _ _ _ _ _ _ _ hok).1
    intro a1 h1 a2 h2 hp hs hd
    rcases List.mem_append.mp h1 with h1 | h1 <;> rcases List.mem_append.mp h2 with h2 | h2
    · exact hQ a1 h1 a2 h2 hp hs hd
    · simp only [List.mem_singleton] at h2
      subst h2
      simp only at hp hd ⊢
      intro hcon
      exact hconf a1 h1 hp hd ⟨hcon.2, hcon.1⟩
    · simp only [List.mem_singleton] at h1
      subst h1
      simp only at hp hd ⊢
      intro hcon
      exact hconf a2 h2 hp.symm hd.symm ⟨hcon.1, hcon.2⟩
    · simp only [List.mem_singleton] at h1 h2
      subst h1; subst h2
      exact absurd rfl hs
  · intro a1 h1
    cases h1

/-- C4: in the scheduler's output no two people assigned to the same shift
are in an exclusion relationship with each other. -/
theorem autoSchedule_exclusions_respected
    (shifts : List Shift) (people : List Person) (mts : List MissionType)
    (existing : List ExistingAssignment) (cal : List CalendarStatus)
    (cfg : SchedulerConfig) :
    ∀ a1 ∈ (autoSchedule shifts people mts existing cal cfg).newAssignments,
      ∀ a2 ∈ (autoSchedule shifts people mts existing cal cfg).newAssignments,
        a1.shift_id = a2.shift_id → a1.person_id ≠ a2.person_id →
          mutuallyExcluded cfg a1.person_id a2.person_id = false := by
  refine autoSchedule_inv shifts people mts existing cal cfg
    (fun news => ∀ a1 ∈ news, ∀ a2 ∈ news, a1.shift_id = a2.shift_id →
      a1.person_id ≠ a2.person_id →
      mutuallyExcluded cfg a1.person_id a2.person_id = false)
    ?_ ?_
  · intro news assigned p role sid d win hQ hcov hok
    have hexcl := (candidateOK_spec _ _ _ _ _ _ _ _ _ hok).2.2
    intro a1 h1 a2 h2 hs hp
    rcases List.mem_append.mp h1 with h1 | h1 <;> rcases List.mem_append.mp h2 with h2 | h2
    · exact hQ a1 h1 a2 h2 hs hp
    · simp only [List.mem_singleton] at h2
      subst h2
      simp only at hs hp ⊢
      have hmem := hcov a1 h1 hs
      obtain ⟨q, hq, hq1⟩ := List.mem_map.mp hmem
      have := hexcl q hq
      rw [hq1] at this
      rw [mutuallyExcluded_symm]
      exact this
    · simp only [List.mem_singleton] at h1
      subst h1
      simp only at hs hp ⊢
      have hmem := hcov a2 h2 hs.symm
      obtain ⟨q, hq, hq1⟩ := List.mem_map.mp hmem
      have := hexcl q hq
      rw [hq1] at this
      exact this
    · simp only [List.mem_singleton] at h1 h2
      subst h1; subst h2
      exact absurd rfl hp
  · intro a1 h1
    cases h1

/-- C5: if the pre-existing assignments respect the consecutive-day limit,
then for every person the union of pre-existing duty dates and the
scheduler's newly produced duty dates contains no run of consecutive
dates longer than the configured limit. -/
theorem autoSchedule_consecutive_limit
    (shifts : List Shift) (people : List Person) (mts : List MissionType)
    (existing : List ExistingAssignment) (cal : List CalendarStatus)
    (cfg : SchedulerConfig)
    (hinit : ∀ p, NoLongRun cfg.maxConsecutiveDays
      (fun x => x ∈ existingDates shifts existing p)) :
    ∀ p, NoLongRun cfg.maxConsecutiveDays
      (fun x => x ∈ personDates shifts existing
        (autoSchedule shifts people mts existing cal cfg).newAssignments p) := by
  refine autoSchedule_inv shifts people mts existing cal cfg
    (fun news => ∀ p, NoLongRun cfg.maxConsecutiveDays
      (fun x => x ∈ personDates shifts existing news p))
    ?_ ?_
  · intro news assigned p role sid d win hQ hcov hok q
    have hcons := (candidateOK_spec _ _ _ _ _ _ _ _ _ hok).2.1
    by_cases hpq : p.pid = q
    · subst hpq
      refine noLongRun_congr _ _ _ ?_ (consecOK_noLongRun _ _ hcons)
      intro x
      rw [personDates_append_mem]
      simp only [List.mem_cons]
      tauto
    · refine noLongRun_congr _ _ _ ?_ (hQ q)
      intro x
      rw [personDates_append_mem]
      simp only
      constructor
      · exact fun h => Or.inl h
      · rintro (h | ⟨h, _⟩)
        · exact h
        · exact absurd h hpq
  · intro p
    refine noLongRun_congr _ _ _ ?_ (hinit p)
    intro x
    simp [personDates, newDates]

theorem pickBestFrom_first_max (score : α → Int) :
    ∀ (xs : List α) (b : α),
      ∃ l1 l2, b :: xs = l1 ++ pickBestFrom score b xs :: l2
        ∧ (∀ x ∈ l1, score x < score (pickBestFrom score b xs))
        ∧ (∀ x ∈ l2, score x ≤ score (pickBestFrom score b xs)) := by
  intro xs
  induction xs with
  | nil =>
    intro b
    exact ⟨[], [], rfl, by simp, by simp⟩
  | cons x xs ih =>
    intro b
    rw [pickBestFrom]
    by_cases hc : score b < score x
    · simp only [hc, if_true]
      obtain ⟨l1, l2, heq, h1, h2⟩ := ih x
      refine ⟨b :: l1, l2, ?_, ?_, h2⟩
      · rw [List.cons_append, ← heq]
      · intro y hy
        rcases List.mem_cons.mp hy with hy | hy
        · subst hy
          cases l1 with
          | nil =>
            have hx : x = pickBestFrom score x xs := by
              have := heq
              simp only [List.nil_append, List.cons.injEq] at this
              exact this.1
            rw [← hx]
            exact hc
          | cons z l1t =>
            have hz : z = x := by
              have := heq
              simp only [List.cons_append, List.cons.injEq] at this
              exact this.1.symm
            have := h1 z (List.mem_cons_self _ _)
            rw [hz] at this
            exact hc.trans this
        · exact h1 y hy
    · simp only [hc, if_false]
      obtain ⟨l1, l2, heq, h1, h2⟩ := ih b
      cases l1 with
      | nil =>
        have hb : b = pickBestFrom score b xs ∧ xs = l2 := by
          have := heq
          simp only [List.nil_append, List.cons.injEq] at this
          exact this
        refine ⟨[], x :: xs, ?_, by simp, ?_⟩
        · simp only [List.nil_append]
          rw [← hb.1]
        · intro y hy
          rcases List.mem_cons.mp hy with hy | hy
          · subst hy
            rw [← hb.1]
            exact Int.not_lt.mp hc
          · rw [hb.2] at hy
            exact h2 y hy
      | cons z l1t =>
        have hz : z = b ∧ xs = l1t ++ pickBestFrom score b xs :: l2 := by
          have := heq
          simp only [List.cons_append, List.cons.injEq] at this
          exact ⟨this.1.symm, this.2⟩
        refine ⟨b :: x :: l1t, l2, ?_, ?_, h2⟩
        · simp only [List.cons_append]
          rw [← hz.2]
        · intro y hy
          have hbbest : score b < score (pickBestFrom score b xs) := by
            have := h1 z (List.mem_cons_self _ _)
            rw [hz.1] at this
            exact this
          rcases List.mem_cons.mp hy with hy | hy
          · subst hy; exact hbbest
          · rcases List.mem_cons.mp hy with hy | hy
            · subst hy
              exact Int.lt_of_le_of_lt (Int.not_lt.mp hc) hbbest
            · exact h1 y (List.mem_cons_of_mem _ hy)

/-- C6: the auto-scheduler is a pure, deterministic function of its inputs
(two runs on identical inputs return the identical result, understaffing
report included), and the candidate selection breaks score ties in favor
of the earlier-declared candidate: whenever `pickBest` selects `c`, every
candidate listed before `c` has a strictly smaller score and every later
candidate scores no higher. -/
theorem autoSchedule_deterministic :
    (∀ (shifts : List Shift) (people : List Person) (mts : List MissionType)
      (existing : List ExistingAssignment) (cal : List CalendarStatus)
      (cfg : SchedulerConfig),
      autoSchedule shifts people mts existing cal cfg
        = autoSchedule shifts people mts existing cal cfg)
    ∧ (∀ (score : Person → Int) (l : List Person) (c : Person),
        pickBest score l = some c →
          ∃ l1 l2, l = l1 ++ c :: l2
            ∧ (∀ x ∈ l1, score x < score c)
            ∧ (∀ x ∈ l2, score x ≤ score c)) := by
  refine ⟨fun _ _ _ _ _ _ => rfl, ?_⟩
  intro score l c h
  cases l with
  | nil => simp [pickBest] at h
  | cons x xs =>
    simp only [pickBest, Option.some.injEq] at h
    subst h
    exact pickBestFrom_first_max score xs x

/-- Witness for C3: one person, two shifts on the same date with disjoint
windows (08:00-10:00 and 12:00-14:00); the scheduler assigns the person
to both and the theorem applies to the two output assignments. -/
theorem autoSchedule_no_double_booking_witness :
    (⟨100, 1, 5, 480, 600, none⟩ : NewAssignment)
        ∈ (autoSchedule [⟨100, 5, 7, "08:00", "10:00"⟩, ⟨101, 5, 7, "12:00", "14:00"⟩]
            [⟨1, "Alice", []⟩] [⟨7, 1, []⟩] [] [] ⟨[], [], 30⟩).newAssignments
      ∧ (⟨101, 1, 5, 720, 840, none⟩ : NewAssignment)
        ∈ (autoSchedule [⟨100, 5, 7, "08:00", "10:00"⟩, ⟨101, 5, 7, "12:00", "14:00"⟩]
            [⟨1, "Alice", []⟩] [⟨7, 1, []⟩] [] [] ⟨[], [], 30⟩).newAssignments
      ∧ ¬((480 : Nat) < 840 ∧ (720 : Nat) < 600) :=
  ⟨by decide, by decide,
    autoSchedule_no_double_booking
      [⟨100, 5, 7, "08:00", "10:00"⟩, ⟨101, 5, 7, "12:00", "14:00"⟩]
      [⟨1, "Alice", []⟩] [⟨7, 1, []⟩] [] [] ⟨[], [], 30⟩
      ⟨100, 1, 5, 480, 600, none⟩ (by decide)
      ⟨101, 1, 5, 720, 840, none⟩ (by decide)
      rfl (by decide) rfl⟩

/-- Witness for C4: a two-slot shift staffed with two people; the theorem
applies to the two output assignments and yields that they are not
mutually excluded. -/
theorem autoSchedule_exclusions_respected_witness :
    (⟨100, 1, 5, 480, 600, none⟩ : NewAssignment)
        ∈ (autoSchedule [⟨100, 5, 7, "08:00", "10:00"⟩]
            [⟨1, "Alice", []⟩, ⟨2, "Bob", []⟩] [⟨7, 2, []⟩] [] [] ⟨[], [], 30⟩).newAssignments
      ∧ (⟨100, 2, 5, 480, 600, none⟩ : NewAssignment)
        ∈ (autoSchedule [⟨100, 5, 7, "08:00", "10:00"⟩]
            [⟨1, "Alice", []⟩, ⟨2, "Bob", []⟩] [⟨7, 2, []⟩] [] [] ⟨[], [], 30⟩).newAssignments
      ∧ mutuallyExcluded ⟨[], [], 30⟩ 1 2 = false :=
  ⟨by decide, by decide,
    autoSchedule_exclusions_respected [⟨100, 5, 7, "08:00", "10:00"⟩]
      [⟨1, "Alice", []⟩, ⟨2, "Bob", []⟩] [⟨7, 2, []⟩] [] [] ⟨[], [], 30⟩
      ⟨100, 1, 5, 480, 600, none⟩ (by decide)
      ⟨100, 2, 5, 480, 600, none⟩ (by decide)
      rfl (by decide)⟩

/-- Witness for C5: the spec's example scenario, three one-slot shifts on
consecutive days and two people with a consecutive-day limit of 1; the
theorem is applied with no pre-existing assignments (so the limit
hypothesis holds vacuously), at person 1, start date 5 and run length 1. -/
theorem autoSchedule_consecutive_limit_witness :
    (∀ i, i ≤ 0 → (5 + i) ∈ personDates
        [⟨100, 5, 7, "08:00", "10:00"⟩, ⟨101, 6, 7, "08:00", "10:00"⟩,
          ⟨102, 7, 7, "08:00", "10:00"⟩] []
        (autoSchedule
          [⟨100, 5, 7, "08:00", "10:00"⟩, ⟨101, 6, 7, "08:00", "10:00"⟩,
            ⟨102, 7, 7, "08:00", "10:00"⟩]
          [⟨1, "Alice", []⟩, ⟨2, "Bob", []⟩] [⟨7, 1, []⟩] [] [] ⟨[], [], 1⟩).newAssignments 1)
      ∧ 0 + 1 ≤ 1 :=
  ⟨fun i hi => by
      have h0 : i = 0 := Nat.le_zero.mp hi
      subst h0
      decide,
    autoSchedule_consecutive_limit
      [⟨100, 5, 7, "08:00", "10:00"⟩, ⟨101, 6, 7, "08:00", "10:00"⟩,
        ⟨102, 7, 7, "08:00", "10:00"⟩]
      [⟨1, "Alice", []⟩, ⟨2, "Bob", []⟩] [⟨7, 1, []⟩] [] [] ⟨[], [], 1⟩
      (fun p d k h => absurd (h 0 (Nat.zero_le _)) (List.not_mem_nil _))
      1 5 0
      (fun i hi => by
        have h0 : i = 0 := Nat.le_zero.mp hi
        subst h0
        decide)⟩

/-- Witness for C6: two equal-scoring candidates; `pickBest` selects the
earlier-declared one and the theorem produces the decomposition. -/
theorem autoSchedule_deterministic_witness :
    pickBest (fun _ => (0 : Int)) [⟨1, "Alice", []⟩, ⟨2, "Bob", []⟩]
        = some (⟨1, "Alice", []⟩ : Person)
      ∧ ∃ l1 l2, ([⟨1, "Alice", []⟩, ⟨2, "Bob", []⟩] : List Person)
          = l1 ++ (⟨1, "Alice", []⟩ : Person) :: l2
        ∧ (∀ x ∈ l1, (fun (_ : Person) => (0 : Int)) x
            < (fun (_ : Person) => (0 : Int)) (⟨1, "Alice", []⟩ : Person))
        ∧ (∀ x ∈ l2, (fun (_ : Person) => (0 : Int)) x
            ≤ (fun (_ : Person) => (0 : Int)) (⟨1, "Alice", []⟩ : Person)) :=
  ⟨rfl, autoSchedule_deterministic.2 (fun _ => (0 : Int))
    [⟨1, "Alice", []⟩, ⟨2, "Bob", []⟩] ⟨1, "Alice", []⟩ rfl⟩

/-- C1: frame property of assignment clearing.  For the Supabase
`clearRosterAssignments` the multiplicity of every row is preserved
exactly, except that with `clearManual = false` precisely the automatic
(`is_auto = true`) rows of listed shifts are removed, and with
`clearManual = true` precisely all rows of listed shifts are removed.
The same holds for the legacy `handleClearRosterAssignments` sheet
version, on sheets whose `is_manual` cells are the TRUE / FALSE strings
the writer produces (there "automatic" is `is_manual = FALSE`). -/
theorem clearRosterAssignments_frame
    (store : List AssignmentRow) (shiftIds : List Nat)
    (sheet : List SheetAssignmentRow) (sheetShiftIds : List String)
    (hm : ∀ r ∈ sheet, r.is_manual = "TRUE" ∨ r.is_manual = "FALSE") :
    (∀ a : AssignmentRow,
      List.count a (clearRosterAssignments store shiftIds false)
        = if a.shift_id ∈ shiftIds ∧ a.is_auto = true then 0 else List.count a store)
    ∧ (∀ a : AssignmentRow,
      List.count a (clearRosterAssignments store shiftIds true)
        = if a.shift_id ∈ shiftIds then 0 else List.count a store)
    ∧ (∀ r : SheetAssignmentRow,
      List.count r (handleClearRosterAssignments sheet sheetShiftIds false)
        = if trimString r.shift_id ∈ sheetShiftIds ∧ r.is_manual = "FALSE"
          then 0 else List.count r sheet)
    ∧ (∀ r : SheetAssignmentRow,
      List.count r (handleClearRosterAssignments sheet sheetShiftIds true)
        = if trimString r.shift_id ∈ sheetShiftIds then 0 else List.count r sheet) := by
  refine ⟨?_, ?_, ?_, ?_⟩
  · intro a
    by_cases hc : a.shift_id ∈ shiftIds ∧ a.is_auto = true
    · rw [if_pos hc]
      refine List.count_eq_zero.mpr ?_
      intro hmem
      have hp := (List.mem_filter.mp hmem).2
      simp [hc.1, hc.2] at hp
    · rw [if_neg hc]
      apply List.count_filter
      by_cases h1 : a.shift_id ∈ shiftIds
      · have h2 : a.is_auto = false := by
          cases hab : a.is_auto
          · rfl
          · exact absurd ⟨h1, hab⟩ hc
        simp [h2]
      · simp [h1]
  · intro a
    by_cases hc : a.shift_id ∈ shiftIds
    · rw [if_pos hc]
      refine List.count_eq_zero.mpr ?_
      intro hmem
      have hp := (List.mem_filter.mp hmem).2
      simp [hc] at hp
    · rw [if_neg hc]
      apply List.count_filter
      simp [hc]
  · intro r
    by_cases hmem : r ∈ sheet
    · rcases hm r hmem with hman | hman
      · have hcond : ¬(trimString r.shift_id ∈ sheetShiftIds ∧ r.is_manual = "FALSE") := by
          rintro ⟨_, h2⟩
          rw [hman] at h2
          exact absurd h2 (by decide)
        rw [if_neg hcond]
        apply List.count_filter
        have hup : upperString (trimString r.is_manual) = "TRUE" := by rw [hman]; decide
        simp [hup]
      · have hup : upperString (trimString r.is_manual) = "FALSE" := by rw [hman]; decide
        by_cases hlist : trimString r.shift_id ∈ sheetShiftIds
        · rw [if_pos ⟨hlist, hman⟩]
          refine List.count_eq_zero.mpr ?_
          intro hmem2
          have hp := (List.mem_filter.mp hmem2).2
          simp [hup, hlist] at hp
        · rw [if_neg (by rintro ⟨h1, _⟩; exact hlist h1)]
          apply List.count_filter
          simp [hlist]
    · have h0 : List.count r sheet = 0 := List.count_eq_zero.mpr hmem
      have h0f : List.count r (handleClearRosterAssignments sheet sheetShiftIds false) = 0 :=
        List.count_eq_zero.mpr (fun hmem2 => hmem ((List.mem_filter.mp hmem2).1))
      rw [h0, h0f]
      by_cases hc : trimString r.shift_id ∈ sheetShiftIds ∧ r.is_manual = "FALSE"
      · rw [if_pos hc]
      · rw [if_neg hc]
  · intro r
    by_cases hc : trimString r.shift_id ∈ sheetShiftIds
    · rw [if_pos hc]
      refine List.count_eq_zero.mpr ?_
      intro hmem2
      have hp := (List.mem_filter.mp hmem2).2
      simp [hc] at hp
    · rw [if_neg hc]
      apply List.count_filter
      simp [hc]

/-- Witness for C1: a concrete store and sheet containing one manual and
one automatic assignment of a listed shift plus an automatic assignment
of an unlisted shift; clearing without `clearManual` removes exactly the
listed automatic row. -/
theorem clearRosterAssignments_frame_witness :
    (∀ r ∈ ([⟨"s1", "Alice", "member", "TRUE", "t"⟩,
        ⟨"s1", "Dana", "member", "FALSE", "t"⟩] : List SheetAssignmentRow),
        r.is_manual = "TRUE" ∨ r.is_manual = "FALSE")
      ∧ List.count (⟨1, 1, none, true⟩ : AssignmentRow)
          (clearRosterAssignments
            [⟨1, 1, none, true⟩, ⟨1, 2, none, false⟩, ⟨2, 3, none, true⟩] [1] false) = 0
      ∧ List.count (⟨1, 2, none, false⟩ : AssignmentRow)
          (clearRosterAssignments
            [⟨1, 1, none, true⟩, ⟨1, 2, none, false⟩, ⟨2, 3, none, true⟩] [1] false)
          = List.count (⟨1, 2, none, false⟩ : AssignmentRow)
            [⟨1, 1, none, true⟩, ⟨1, 2, none, false⟩, ⟨2, 3, none, true⟩]
      ∧ List.count (⟨"s1", "Dana", "member", "FALSE", "t"⟩ : SheetAssignmentRow)
          (handleClearRosterAssignments
            [⟨"s1", "Alice", "member", "TRUE", "t"⟩,
              ⟨"s1", "Dana", "member", "FALSE", "t"⟩] ["s1"] false) = 0 := by
  refine ⟨by decide, ?_, ?_, ?_⟩
  · have h := (clearRosterAssignments_frame
      [⟨1, 1, none, true⟩, ⟨1, 2, none, false⟩, ⟨2, 3, none, true⟩] [1]
      [⟨"s1", "Alice", "member", "TRUE", "t"⟩, ⟨"s1", "Dana", "member", "FALSE", "t"⟩]
      ["s1"] (by decide)).1 ⟨1, 1, none, true⟩
    rwa [if_pos (by decide)] at h
  · have h := (clearRosterAssignments_frame
      [⟨1, 1, none, true⟩, ⟨1, 2, none, false⟩, ⟨2, 3, none, true⟩] [1]
      [⟨"s1", "Alice", "member", "TRUE", "t"⟩, ⟨"s1", "Dana", "member", "FALSE", "t"⟩]
      ["s1"] (by decide)).1 ⟨1, 2, none, false⟩
    rwa [if_neg (by decide)] at h
  · have h := (clearRosterAssignments_frame
      [⟨1, 1, none, true⟩, ⟨1, 2, none, false⟩, ⟨2, 3, none, true⟩] [1]
      [⟨"s1", "Alice", "member", "TRUE", "t"⟩, ⟨"s1", "Dana", "member", "FALSE", "t"⟩]
      ["s1"] (by decide)).2.2.1 ⟨"s1", "Dana", "member", "FALSE", "t"⟩
    rwa [if_pos (by decide)] at h

theorem noDupPair_countP_le_one (l : List AssignmentRow) (h : noDupPair l = true) :
    ∀ sid pid,
      l.countP (fun r => decide (r.shift_id = sid ∧ r.person_id = pid)) ≤ 1 := by
  induction l with
  | nil => intro sid pid; simp
  | cons r rs ih =>
    simp only [noDupPair, Bool.and_eq_true, Bool.not_eq_true'] at h
    intro sid pid
    rw [List.countP_cons]
    by_cases hp : (r.shift_id = sid ∧ r.person_id = pid)
    · have hz : rs.countP (fun b => decide (b.shift_id = sid ∧ b.person_id = pid)) = 0 := by
        refine List.countP_eq_zero.mpr ?_
        intro b hb
        have := List.any_eq_false.mp h.1 b hb
        simp only [decide_eq_true_eq] at this ⊢
        intro hcon
        exact this ⟨hcon.1.trans hp.1.symm, hcon.2.trans hp.2.symm⟩
      rw [hz]
      simp [hp]
    · simp only [hp, decide_False, if_false]
      simpa using ih h.2 sid pid

theorem insertAssignmentChunks_unique :
    ∀ (cs : List (List AssignmentRow)) (store : List AssignmentRow),
      noDupPair store = true →
      noDupPair (insertAssignmentChunks store cs).1 = true := by
  intro cs
  induction cs with
  | nil => intro store h; simpa [insertAssignmentChunks] using h
  | cons c cs ih =>
    intro store h
    rw [insertAssignmentChunks]
    by_cases hck : noDupPair (store ++ c) = true
    · simp only [hck, if_true]
      exact ih (store ++ c) hck
    · simp only [hck, if_false]
      exact h

/-- C2 (amended): the Supabase `shift_assignments` store keeps the
(shift_id, person_id) pair unique - the table's UNIQUE constraint rejects
any insert batch that would duplicate a pair - so `saveRosterAssignments`
preserves the invariant for every input, including a pair submitted twice
or already present: after the call every (shift, person) pair still
occurs at most once.  (The legacy `handleSaveRosterAssignments` does not
preserve it; see the counterexample.) -/
theorem saveRosterAssignments_unique
    (people : List (String × Nat)) (store : List AssignmentRow)
    (assignments : List AssignmentInput)
    (h : noDupPair store = true) :
    noDupPair (saveRosterAssignments people store assignments).1 = true
      ∧ ∀ sid pid,
        (saveRosterAssignments people store assignments).1.countP
          (fun r => decide (r.shift_id = sid ∧ r.person_id = pid)) ≤ 1 := by
  have hmain : noDupPair (saveRosterAssignments people store assignments).1 = true := by
    rw [saveRosterAssignments]
    cases resolveAssignmentRows people assignments with
    | error e => simpa using h
    | ok rows => exact insertAssignmentChunks_unique _ store h
  exact ⟨hmain, noDupPair_countP_le_one _ hmain⟩

/-- C2 counterexample: the legacy `handleSaveRosterAssignments` appends
rows with no duplicate check, so submitting the same (shift, person) pair
twice to an empty sheet leaves the pair twice in the store - the claimed
invariant fails for this write operation. -/
theorem handleSaveRosterAssignments_duplicate_pair :
    ¬ ((handleSaveRosterAssignments []
        [⟨"s1", "Alice", "", true, ""⟩, ⟨"s1", "Alice", "", true, ""⟩] "t0").countP
          (fun r => decide (r.shift_id = "s1" ∧ r.name = "Alice")) ≤ 1) := by
  decide

/-- Witness for C2: duplicate submission of the pair (1, Alice) against an
empty store; the constraint-checked insert rejects it and the pair count
stays at most one. -/
theorem saveRosterAssignments_unique_witness :
    noDupPair [] = true
      ∧ (saveRosterAssignments [("Alice", 1)] []
          [⟨1, "Alice", "", "FALSE"⟩, ⟨1, "Alice", "", "FALSE"⟩]).1.countP
          (fun r => decide (r.shift_id = 1 ∧ r.person_id = 1)) ≤ 1 :=
  ⟨rfl, (saveRosterAssignments_unique [("Alice", 1)] []
    [⟨1, "Alice", "", "FALSE"⟩, ⟨1, "Alice", "", "FALSE"⟩] rfl).2 1 1⟩

theorem configLookup_map_update (store : List RosterConfigRow) (o : Nat) (k : String)
    (v : JsonValue)
    (hany : store.any (fun r => decide (r.org_id = o ∧ r.key = k)) = true) :
    configLookup (store.map
        (fun r => if r.org_id = o ∧ r.key = k then { r with value := v } else r)) o k
      = some v := by
  induction store with
  | nil => simp at hany
  | cons r rs ih =>
    by_cases hc : r.org_id = o ∧ r.key = k
    · simp [configLookup, hc]
    · have hany2 : rs.any (fun r => decide (r.org_id = o ∧ r.key = k)) = true := by
        simpa [List.any_cons, hc] using hany
      simpa [configLookup, hc] using ih hany2

theorem configLookup_append_new (store : List RosterConfigRow) (o : Nat) (k : String)
    (v : JsonValue)
    (hnone : store.any (fun r => decide (r.org_id = o ∧ r.key = k)) = false) :
    configLookup (store ++ [⟨o, k, v⟩]) o k = some v := by
  induction store with
  | nil => simp [configLookup]
  | cons r rs ih =>
    have hc : ¬(r.org_id = o ∧ r.key = k) := by
      intro hcon
      have := List.any_eq_false.mp hnone r (List.mem_cons_self _ _)
      simp [hcon.1, hcon.2] at this
    have hnone2 : rs.any (fun r => decide (r.org_id = o ∧ r.key = k)) = false := by
      refine List.any_eq_false.mpr ?_
      intro b hb
      exact List.any_eq_false.mp hnone b (List.mem_cons_of_mem _ hb)
    simpa [configLookup, hc] using ih hnone2

theorem configLookup_upsert (store : List RosterConfigRow) (o : Nat) (k : String)
    (v : JsonValue) :
    configLookup (upsertConfigRow store o k v) o k = some v := by
  rw [upsertConfigRow]
  by_cases hany : store.any (fun r => decide (r.org_id = o ∧ r.key = k)) = true
  · rw [if_pos hany]
    exact configLookup_map_update store o k v hany
  · rw [if_neg hany]
    exact configLookup_append_new store o k v (by simpa using hany)

/-- C7: `saveRosterConfigKey` is total on every input string - a JSON
parse failure is caught and the raw string is stored as the value instead
of an exception propagating - and the roster's parameter loading falls
back to the default parameter set when the stored configuration string is
unparseable, so scheduling proceeds with defaults instead of aborting. -/
theorem saveRosterConfigKey_fallback
    (parseJson : String → Option JsonValue) (store : List RosterConfigRow)
    (orgId : Nat) (key value raw : String)
    (hfail : parseJson value = none) (hraw : parseJson raw = none) :
    configLookup (saveRosterConfigKey parseJson store orgId key value) orgId key
        = some (JsonValue.str value)
      ∧ loadSchedulingParams parseJson raw = defaultSchedulingParams := by
  constructor
  · rw [saveRosterConfigKey]
    simp only [hfail]
    exact configLookup_upsert store orgId key (JsonValue.str value)
  · rw [loadSchedulingParams, hraw]
    rfl

/-- Witness for C7: a parser that fails on every input (both hypotheses
hold by rfl); the raw string is stored and the default parameters are
used. -/
theorem saveRosterConfigKey_fallback_witness :
    (fun (_ : String) => (none : Option JsonValue)) "not json" = none
      ∧ configLookup
          (saveRosterConfigKey (fun _ => none) [] 1 "exclusions" "not json") 1 "exclusions"
          = some (JsonValue.str "not json")
      ∧ loadSchedulingParams (fun _ => none) "oops" = defaultSchedulingParams :=
  ⟨rfl,
    (saveRosterConfigKey_fallback (fun _ => none) [] 1 "exclusions" "not json" "oops"
      rfl rfl).1,
    (saveRosterConfigKey_fallback (fun _ => none) [] 1 "exclusions" "not json" "oops"
      rfl rfl).2⟩

/-- C8 (bug exhibit): `setCurrentOrg` switches the current organization
without resetting the people cache, so a `fetchCalendarData` call after
the switch resolves the new organization's calendar entries against the
previous organization's cached people and returns "(unknown)" instead of
the new organization's names, while the same read on a fresh client
state returns the correct name from the new organization's rows. -/
theorem fetchCalendarData_stale_cache_after_org_switch :
    (fetchCalendarData twoOrgDatabase
        (setCurrentOrg (fetchCalendarData twoOrgDatabase (freshClientState 1)).1 2)).2
      = [⟨"(unknown)", "2026-01-01", "home", "", ""⟩]
      ∧ (fetchCalendarData twoOrgDatabase (freshClientState 2)).2
        = [⟨"Bob", "2026-01-01", "home", "", "bravo"⟩] :=
  ⟨rfl, rfl⟩

/-- C10 (bug exhibit): the CSV round-trip loses fields containing commas.
`toCsv` correctly quotes the field, but `parseCsv` strips the quotes in
its line-splitting pass and `splitCsvLine` then re-splits the unquoted
comma, so the value "a,b" comes back as "a" - contradicting parseCsv's
own header comment ("handles quoted fields, commas in values, escaped
quotes"). -/
theorem parseCsv_toCsv_comma_field_lost :
    toCsv [[("value", "a,b")]] ["value"] = "value\n\"a,b\"\n"
      ∧ parseCsv (toCsv [[("value", "a,b")]] ["value"]) = [[("value", "a")]]
      ∧ [[("value", "a")]] ≠ ([[("value", "a,b")]] : List (List (String × String))) :=
  ⟨rfl, rfl, by decide⟩

theorem saveRosterShiftsAux_spec (mtBySlug : List (String × String)) (orgId : String)
    (freshGen : Nat → String) (hfresh : ∀ k, isUuid (freshGen k) = true) :
    ∀ (shifts : List ShiftInput) (db : List DbShiftRow) (k : Nat),
      (∀ s ∈ (saveRosterShiftsAux mtBySlug orgId freshGen shifts db k).2.1,
        isUuid s.id = true)
      ∧ List.Forall₂ (fun (s o : ShiftInput) =>
          (isUuid s.id = true → o = s)
            ∧ (isUuid s.id = false → isUuid o.id = true ∧ o.date = s.date
                ∧ o.mission_type = s.mission_type ∧ o.start_time = s.start_time
                ∧ o.end_time = s.end_time ∧ o.note = s.note))
          shifts (saveRosterShiftsAux mtBySlug orgId freshGen shifts db k).2.1
      ∧ (saveRosterShiftsAux mtBySlug orgId freshGen shifts db k).1.map (fun r => r.id)
        = db.map (fun r => r.id)
          ++ ((saveRosterShiftsAux mtBySlug orgId freshGen shifts db k).2.1.zip
              shifts).filterMap
              (fun p => if isUuid p.2.id then none else some p.1.id) := by
  intro shifts
  induction shifts with
  | nil =>
    intro db k
    refine ⟨by simp [saveRosterShiftsAux], ?_, by simp [saveRosterShiftsAux]⟩
    simp [saveRosterShiftsAux]
  | cons s rest ih =>
    intro db k
    by_cases hu : isUuid s.id = true
    · rw [saveRosterShiftsAux]
      simp only [hu, if_true]
      obtain ⟨ih1, ih2, ih3⟩ := ih (db.map (fun r =>
        if r.id = s.id then
          { r with
            date := s.date
            mission_type_id := List.lookup s.mission_type mtBySlug
            start_time := normTime s.start_time
            end_time := normTime s.end_time
            note := s.note }
        else r)) k
      refine ⟨?_, ?_, ?_⟩
      · intro x hx
        rcases List.mem_cons.mp hx with hx | hx
        · subst hx; exact hu
        · exact ih1 x hx
      · exact List.Forall₂.cons
          ⟨fun _ => rfl, fun hf => absurd hu (by simp [hf])⟩ ih2
      · rw [ih3]
        have hids : (db.map (fun r =>
            if r.id = s.id then
              { r with
                date := s.date
                mission_type_id := List.lookup s.mission_type mtBySlug
                start_time := normTime s.start_time
                end_time := normTime s.end_time
                note := s.note }
            else r)).map (fun r => r.id) = db.map (fun r => r.id) := by
          rw [List.map_map]
          refine List.map_congr_left ?_
          intro r _
          by_cases hr : r.id = s.id
          · simp [hr]
          · simp [hr]
        rw [hids]
        simp [List.zip_cons_cons, hu]
    · have hun : isUuid s.id = false := by
        cases hx : isUuid s.id
        · rfl
        · exact absurd hx hu
      rw [saveRosterShiftsAux, hun]
      rw [if_neg Bool.false_ne_true]
      obtain ⟨ih1, ih2, ih3⟩ := ih
        (db ++ [⟨freshGen k, orgId, s.date, List.lookup s.mission_type mtBySlug,
          normTime s.start_time, normTime s.end_time, s.note⟩]) (k + 1)
      refine ⟨?_, ?_, ?_⟩
      · intro x hx
        rcases List.mem_cons.mp hx with hx | hx
        · subst hx; exact hfresh k
        · exact ih1 x hx
      · exact List.Forall₂.cons
          ⟨fun ht => absurd ht hu, fun _ => ⟨hfresh k, rfl, rfl, rfl, rfl, rfl⟩⟩ ih2
      · rw [ih3]
        simp only [List.map_append, List.map_cons, List.map_nil]
        rw [List.append_assoc]
        congr 1
        simp [List.zip_cons_cons, hun]

/-- C9: `saveRosterShifts` classifies each input shift by the UUID test on
its id.  A shift whose id matches stays untouched in the returned input
list (updates go to the database row of that id); a shift whose id does
not match gets its id field mutated to the database-generated UUID while
all other fields are preserved, and the database gains exactly the
inserted ids appended after the existing rows (updates never change row
ids).  Consequently, after a successful call every element of the input
array carries a UUID id. -/
theorem saveRosterShifts_classifies
    (mtBySlug : List (String × String)) (orgId : String) (freshGen : Nat → String)
    (db : List DbShiftRow) (shifts : List ShiftInput)
    (hfresh : ∀ k, isUuid (freshGen k) = true) :
    (∀ s ∈ (saveRosterShifts mtBySlug orgId freshGen db shifts).2, isUuid s.id = true)
      ∧ List.Forall₂ (fun (s o : ShiftInput) =>
          (isUuid s.id = true → o = s)
            ∧ (isUuid s.id = false → isUuid o.id = true ∧ o.date = s.date
                ∧ o.mission_type = s.mission_type ∧ o.start_time = s.start_time
                ∧ o.end_time = s.end_time ∧ o.note = s.note))
          shifts (saveRosterShifts mtBySlug orgId freshGen db shifts).2
      ∧ (saveRosterShifts mtBySlug orgId freshGen db shifts).1.map (fun r => r.id)
        = db.map (fun r => r.id)
          ++ ((saveRosterShifts mtBySlug orgId freshGen db shifts).2.zip shifts).filterMap
              (fun p => if isUuid p.2.id then none else some p.1.id) :=
  saveRosterShiftsAux_spec mtBySlug orgId freshGen hfresh shifts db 0

/-- Witness for C9: one UUID-id shift (updated, id kept) and one
placeholder-id shift (inserted, id mutated to the generated UUID); after
the call every returned shift id passes the UUID test. -/
theorem saveRosterShifts_classifies_witness :
    (∀ k : Nat,
      isUuid ((fun (_ : Nat) => "00000000-0000-4000-8000-000000000000") k) = true)
      ∧ ∀ s ∈ (saveRosterShifts [("patrol", "mt1")] "org1"
          (fun _ => "00000000-0000-4000-8000-000000000000")
          [⟨"11111111-1111-1111-1111-111111111111", "org1", "2026-01-01", some "mt1",
            none, none, ""⟩]
          [⟨"11111111-1111-1111-1111-111111111111", "2026-01-02", "patrol", "08:00",
            "10:00", ""⟩,
            ⟨"shift-2", "2026-01-03", "patrol", "08:00", "10:00", ""⟩]).2,
          isUuid s.id = true := by
  have huuid : isUuid "00000000-0000-4000-8000-000000000000" = true := by decide
  exact ⟨fun _ => huuid,
    (saveRosterShifts_classifies [("patrol", "mt1")] "org1"
      (fun _ => "00000000-0000-4000-8000-000000000000")
      [⟨"11111111-1111-1111-1111-111111111111", "org1", "2026-01-01", some "mt1",
        none, none, ""⟩]
      [⟨"11111111-1111-1111-1111-111111111111", "2026-01-02", "patrol", "08:00",
        "10:00", ""⟩,
        ⟨"shift-2", "2026-01-03", "patrol", "08:00", "10:00", ""⟩]
      (fun _ => huuid)).1⟩
